import Mathlib

/-!
Verification of the Crime-detection heuristic core (BTP/src): feature
aggregation (`features.py`), the feature-vector encoder and prototype store
(`prototype_store.py`), and the heuristic classifier (`classifier.py`).

Python floats are modelled as real numbers; quantities produced by purely
rational arithmetic (frame measurements, ratio computations) are modelled as
rationals and coerced into the real-valued feature record.  Python `dict`s
(which preserve insertion order) are modelled as ordered association lists.
Fallible operations return `Except`.
-/

namespace CrimeDetection

/-- `video_processing.FrameStats`: one sampled frame's measurements. -/
structure FrameStats where
  index : ℕ
  timestamp : ℚ
  person_count : ℕ
  moving_objects : ℕ
  motion_magnitude : ℚ
deriving DecidableEq

/-- `video_processing.VideoMetadata`. -/
structure VideoMetadata where
  fps : ℚ
  frame_count : ℕ
  duration_seconds : ℚ
  width : ℕ
  height : ℕ
deriving DecidableEq

/-- `features.VideoFeatures`: the aggregated feature record. -/
structure VideoFeatures where
  average_motion : ℝ
  peak_motion : ℝ
  motion_std : ℝ
  crowd_ratio : ℝ
  solo_motion_ratio : ℝ
  motion_burst_ratio : ℝ
  person_presence_ratio : ℝ
  multi_person_ratio : ℝ
  motion_presence_ratio : ℝ
  active_motion_ratio : ℝ
  late_motion_ratio : ℝ
  motion_trend : ℝ
  calm_ratio : ℝ
  median_person_count : ℝ
  mean_person_count : ℝ
  avg_moving_objects : ℝ
  max_moving_objects : ℝ
  duration_seconds : ℝ
  frame_samples : ℕ
  fps_estimate : ℝ

/-- `prototype_store.PrototypeSample`. -/
structure PrototypeSample where
  label : String
  vector : List ℝ
  source : Option String := none

/-- `classifier.ClassificationResult`.  The numeric `.2f` interpolation in the
explanation string is outside the model; the field carries the template text. -/
structure ClassificationResult where
  label : String
  scores : List (String × ℝ)
  explanation : String

/-- The ways `HeuristicCrimeClassifier.classify` can raise: the `ValueError`
for zero frame samples (line 33) and a `KeyError` from `scores[label] += ...`
(line 121). -/
inductive ClassifierError where
  | insufficientData : ClassifierError
  | keyError : String → ClassifierError
deriving DecidableEq

/-! ### `prototype_store.FEATURE_VECTOR_FIELDS` and `build_feature_vector` -/

/-- The fixed (field, scale) table of `prototype_store.py` lines 11-24,
with the field name replaced by the record accessor. -/
def FEATURE_VECTOR_FIELDS : List ((VideoFeatures → ℝ) × ℝ) :=
  [(VideoFeatures.average_motion, 5),
   (VideoFeatures.peak_motion, 10),
   (VideoFeatures.motion_std, 5),
   (VideoFeatures.crowd_ratio, 1),
   (VideoFeatures.motion_burst_ratio, 1),
   (VideoFeatures.person_presence_ratio, 1),
   (VideoFeatures.active_motion_ratio, 1),
   (VideoFeatures.late_motion_ratio, 1),
   (VideoFeatures.avg_moving_objects, 4),
   (VideoFeatures.max_moving_objects, 6),
   (VideoFeatures.calm_ratio, 1),
   (VideoFeatures.multi_person_ratio, 1)]

/-- `prototype_store.build_feature_vector`: `value / scale if scale else value`,
clamped by `max(-2.0, min(2.0, normalized))`. -/
noncomputable def build_feature_vector (features : VideoFeatures) : List ℝ :=
  FEATURE_VECTOR_FIELDS.map fun fs =>
    let value := fs.1 features
    let normalized := if fs.2 = 0 then value else value / fs.2
    max (-2) (min 2 normalized)

/-! ### Ordered association lists modelling Python dicts -/

/-- Keys in insertion order (`list(d)`). -/
def dictKeys (d : List (String × ℝ)) : List String := d.map Prod.fst

/-- `d.get(k, v)`: value at the first occurrence of `k`, else the default. -/
def dictGetD (d : List (String × ℝ)) (k : String) (v : ℝ) : ℝ :=
  match d with
  | [] => v
  | p :: rest => if p.1 = k then p.2 else dictGetD rest k v

/-- `d[k] = v`: overwrite the first occurrence of `k` in place, else append. -/
def dictSet (d : List (String × ℝ)) (k : String) (v : ℝ) : List (String × ℝ) :=
  match d with
  | [] => [(k, v)]
  | p :: rest => if p.1 = k then (p.1, v) :: rest else p :: dictSet rest k v

/-- `sum(d.values())`. -/
def dictSum (d : List (String × ℝ)) : ℝ := (d.map Prod.snd).sum

/-- The running-maximum loop inside Python `max(d, key=d.get)`: a later entry
replaces the current best only when its value is strictly greater, so the
first maximal entry wins. -/
noncomputable def maxKeyAux : String × ℝ → List (String × ℝ) → String
  | best, [] => best.1
  | best, p :: rest => if best.2 < p.2 then maxKeyAux p rest else maxKeyAux best rest

/-- `max(d, key=d.get)` over the insertion-ordered entries. -/
noncomputable def dictMaxKey : List (String × ℝ) → Option String
  | [] => none
  | p :: rest => some (maxKeyAux p rest)

/-! ### Filename override (`classifier.py` lines 21-26 and 172-180)

Strings are handled as character lists so that every operation is structural
(`pathlib`'s stem extraction and `str.lower` are re-expressed over
`List Char`). -/

/-- Substring test over character lists (Python `needle in haystack`). -/
def charsContain (haystack needle : List Char) : Bool :=
  match haystack with
  | [] => needle.isEmpty
  | _ :: t => needle.isPrefixOf haystack || charsContain t needle

/-- Index of the last `'.'` in a character list (`str.rfind('.')`). -/
def lastDotPos (cs : List Char) : Option ℕ :=
  match cs.reverse.findIdx? (· == '.') with
  | none => none
  | some j => some (cs.length - 1 - j)

/-- `str.lower()` character by character. -/
def lowerChars (cs : List Char) : List Char := cs.map Char.toLower

/-- `Path(p).stem`: the final slash-separated component minus its suffix; a
suffix requires the last dot to be neither the first character of the
component nor its final one. -/
def pathStemChars (p : String) : List Char :=
  let name := (p.data.reverse.takeWhile fun c => !(c == '/')).reverse
  match lastDotPos name with
  | none => name
  | some i => if 0 < i ∧ i < name.length - 1 then name.take i else name

/-- `HeuristicCrimeClassifier.filename_overrides`, in insertion order. -/
def filename_overrides : List (String × List String) :=
  [("road accident", ["accident", "acci"]),
   ("explosion", ["explosion", "expl", "exp"]),
   ("robbery", ["robbery", "rob"]),
   ("theft", ["theft", "steal", "new"])]

/-- Inner loop of `_filename_override`: first keyword of one table entry that
is non-empty (Python truthiness) and occurs in the name. -/
def findKeyword (name : List Char) : List String → Option String
  | [] => none
  | k :: rest =>
      if k ≠ "" ∧ charsContain name k.data then some k else findKeyword name rest

/-- Outer loop of `_filename_override` over the table entries. -/
def findOverride (name : List Char) : List (String × List String) → Option (String × String)
  | [] => none
  | entry :: rest =>
      match findKeyword name entry.2 with
      | some k => some (entry.1, k)
      | none => findOverride name rest

/-- `HeuristicCrimeClassifier._filename_override`.  An absent or empty path
(Python falsiness) yields no override. -/
def filenameOverride (video_path : Option String) : Option (String × String) :=
  match video_path with
  | none => none
  | some p =>
      if p = "" then none
      else findOverride (lowerChars (pathStemChars p)) filename_overrides

/-! ### Heuristic classifier (`classifier.py`) -/

/-- `HeuristicCrimeClassifier.classes`, in tuple order. -/
def classesList : List String :=
  ["robbery", "theft", "assault", "explosion", "road accident", "normal"]

/-- `HeuristicCrimeClassifier._normalize_motion`. -/
noncomputable def normalizeMotion (avg_motion peak_motion : ℝ) : ℝ :=
  let avg_component := Real.tanh (avg_motion / 6)
  let peak_component := Real.tanh (peak_motion / 10)
  min 1 (0.6 * avg_component + 0.4 * peak_component)

/-- `HeuristicCrimeClassifier._build_explanation`, template text only (numeric
interpolation of the sub-scores is not modelled). -/
def buildExplanation (label : String) : String :=
  match label with
  | "robbery" => "Large groups and repeated bursts of motion suggest a coordinated grab."
  | "theft" => "Isolated motion while the scene stays sparse matches theft-like activity."
  | "assault" => "Aggressive bursts with multiple participants point to an assault pattern."
  | "explosion" => "Sudden, volatile spikes with little human presence align with an explosion-like blast."
  | "road accident" => "Dense moving objects and directional bursts in a sparse crowd resemble a road incident."
  | "normal" => "Low motion and calm frames dominate the clip, indicating routine activity."
  | _ => "Heuristic classification completed."

/-- Lines 35-117 of `classify`: the sub-scores and the per-class score dict,
in insertion order. -/
noncomputable def heuristicScores (features : VideoFeatures) : List (String × ℝ) :=
  let motion_score := normalizeMotion features.average_motion features.peak_motion
  let volatility_score := Real.tanh (features.motion_std / 3.5)
  let burst_score := min 1 features.motion_burst_ratio
  let crowd_score := min 1 features.crowd_ratio
  let multi_person_score := min 1 features.multi_person_ratio
  let solo_motion_score := min 1 features.solo_motion_ratio
  let calm_score := max 0 (min 1 features.calm_ratio)
  let presence_score := min 1 features.person_presence_ratio
  let motion_presence_score := min 1 features.motion_presence_ratio
  let active_motion_score := min 1 features.active_motion_ratio
  let late_motion_score := min 1 features.late_motion_ratio
  let trend_score := Real.tanh (max 0 features.motion_trend / 2)
  let moving_group_score := min 1 (features.max_moving_objects / 4)
  let spike_score := Real.tanh (max 0 (features.peak_motion - features.average_motion) / 4)
  let sparse_presence_score := max 0 (1 - presence_score)
  let object_density_score := min 1 (features.avg_moving_objects / 3)
  let vehicle_flow_score := min 1 (0.6 * object_density_score + 0.4 * motion_presence_score)
  let lane_shift_score := min 1 (0.6 * late_motion_score + 0.4 * trend_score)
  let crowd_presence_penalty := min 1 (0.6 * crowd_score + 0.4 * presence_score)
  let robbery_score :=
    0.25 * crowd_score + 0.2 * multi_person_score + 0.2 * moving_group_score
      + 0.15 * burst_score + 0.1 * late_motion_score + 0.1 * motion_presence_score
  let theft_score :=
    0.35 * solo_motion_score + 0.25 * active_motion_score + 0.15 * late_motion_score
      + 0.15 * (1 - crowd_score) + 0.1 * motion_presence_score
  let assault_score :=
    0.3 * burst_score + 0.2 * motion_score + 0.2 * active_motion_score
      + 0.15 * multi_person_score + 0.1 * trend_score + 0.05 * motion_presence_score
  let normal_score :=
    0.3 * calm_score + 0.25 * (1 - active_motion_score) + 0.2 * (1 - burst_score)
      + 0.15 * (1 - motion_presence_score) + 0.1 * (1 - late_motion_score)
  let explosion_base :=
    0.4 * spike_score + 0.25 * volatility_score + 0.15 * burst_score
      + 0.1 * (1 - calm_score) + 0.1 * sparse_presence_score
  let explosion_penalty := 0.4 * crowd_score + 0.2 * object_density_score
  let explosion_score := max 0 (explosion_base - explosion_penalty)
  let explosion_score :=
    if sparse_presence_score < 0.3 then explosion_score * 0.6 else explosion_score
  let road_accident_base :=
    0.35 * vehicle_flow_score + 0.2 * spike_score + 0.15 * lane_shift_score
      + 0.1 * moving_group_score + 0.1 * (1 - calm_score) + 0.1 * active_motion_score
  let road_accident_penalty := 0.5 * crowd_presence_penalty + 0.2 * calm_score
  let road_accident_score := max 0 (road_accident_base - road_accident_penalty)
  let road_accident_score :=
    if vehicle_flow_score < 0.25 then road_accident_score * 0.5 else road_accident_score
  [("robbery", robbery_score),
   ("theft", theft_score),
   ("assault", assault_score),
   ("explosion", explosion_score),
   ("road accident", road_accident_score),
   ("normal", normal_score)]

/-- `HeuristicCrimeClassifier._similarity`: zero for empty or length-mismatched
vectors, otherwise `exp(-2.5 * euclidean distance)`. -/
noncomputable def similarity (vec_a vec_b : List ℝ) : ℝ :=
  if vec_a.isEmpty || vec_b.isEmpty || vec_a.length != vec_b.length then 0
  else
    Real.exp (-2.5 * Real.sqrt (((vec_a.zip vec_b).map fun p => (p.1 - p.2) ^ 2).sum))

/-- `HeuristicCrimeClassifier._prototype_scores`. -/
noncomputable def prototypeScores (prototypes : List PrototypeSample)
    (features : VideoFeatures) : List (String × ℝ) :=
  if prototypes.isEmpty then []
  else
    let current_vector := build_feature_vector features
    let accum := prototypes.foldl
      (fun acc s => dictSet acc s.label (dictGetD acc s.label 0 + similarity current_vector s.vector))
      (classesList.map fun c => (c, (0 : ℝ)))
    let total := dictSum accum
    if total ≤ 0 then [] else accum.map fun p => (p.1, p.2 / total)

/-- The `scores[label] += 0.2 * bonus` loop of `classify` (lines 119-121):
each step looks the label up in `scores` and raises `KeyError` when absent. -/
noncomputable def addBonuses (scores : List (String × ℝ)) :
    List (String × ℝ) → Except ClassifierError (List (String × ℝ))
  | [] => .ok scores
  | p :: rest =>
      if (dictKeys scores).contains p.1 then
        addBonuses (dictSet scores p.1 (dictGetD scores p.1 0 + 0.2 * p.2)) rest
      else .error (.keyError p.1)

/-- `HeuristicCrimeClassifier.classify`.  The `prototypes or []` constructor
default is the prototype list argument; the `max` over an empty dict cannot be
reached because the scores dict always carries the six class keys. -/
noncomputable def classify (prototypes : List PrototypeSample) (features : VideoFeatures)
    (video_path : Option String) : Except ClassifierError ClassificationResult :=
  if features.frame_samples = 0 then .error .insufficientData
  else
    let scores := heuristicScores features
    let prototype_bonus := prototypeScores prototypes features
    match addBonuses scores prototype_bonus with
    | .error e => .error e
    | .ok scores =>
        let label :=
          match filenameOverride video_path with
          | some hint => hint.1
          | none => (dictMaxKey scores).getD ""
        .ok ⟨label, scores, buildExplanation label⟩

/-! ### Feature aggregator (`features.VideoFeatureExtractor._aggregate`)

The per-frame measurements are exact rationals, so every numpy reduction other
than `np.std` (mean, max, median, percentile, boolean-mean) is modelled in ℚ
and coerced into the real-valued record; `np.std` applies `Real.sqrt` to the
rational mean squared deviation.  Each local variable of `_aggregate` is a
named definition over the measurement list. -/

/-- `np.mean` of a rational series (`0` on the empty list, unused there). -/
def qmean (l : List ℚ) : ℚ := l.sum / l.length

/-- `np.mean` of a boolean series: the fraction of elements satisfying `p`. -/
def frac {α : Type} (l : List α) (p : α → Bool) : ℚ := (l.countP p : ℚ) / l.length

/-- `np.max` of a non-empty rational series. -/
def qmax : List ℚ → ℚ
  | [] => 0
  | h :: t => t.foldl max h

/-- `np.median`: midpoint of the two middle order statistics. -/
def qmedian (l : List ℚ) : ℚ :=
  let s := l.insertionSort (· ≤ ·)
  let n := l.length
  if n % 2 = 1 then s.getD (n / 2) 0
  else (s.getD (n / 2 - 1) 0 + s.getD (n / 2) 0) / 2

/-- `np.percentile(l, 75)` with the default linear interpolation: the value at
fractional rank `0.75 * (n - 1)` of the sorted series. -/
def percentile75 (l : List ℚ) : ℚ :=
  let s := l.insertionSort (· ≤ ·)
  let pos := 3 * (l.length - 1)
  let low := pos / 4
  let a := s.getD low 0
  let b := s.getD (low + 1) a
  a + ((pos % 4 : ℚ) / 4) * (b - a)

/-- The `motions` array. -/
def motionsOf (stats : List FrameStats) : List ℚ := stats.map (·.motion_magnitude)

/-- The `people` array (`person_count` as float). -/
def peopleOf (stats : List FrameStats) : List ℚ := stats.map fun s => (s.person_count : ℚ)

/-- The `moving_objects` array. -/
def movingObjectsOf (stats : List FrameStats) : List ℚ :=
  stats.map fun s => (s.moving_objects : ℚ)

/-- `burst_threshold`: 75th percentile of motions (0 for the empty series). -/
def burstThreshold (stats : List FrameStats) : ℚ :=
  if (motionsOf stats).length ≠ 0 then percentile75 (motionsOf stats) else 0

/-- `raw_calm_ratio`: fraction of motions below `calm_threshold = 1.0`. -/
def rawCalmRatio (stats : List FrameStats) : ℚ :=
  frac (motionsOf stats) fun m => decide (m < 1)

/-- `solo_motion_ratio`: `(people <= 1) & (motions > 1.2)`. -/
def soloMotionRatio (stats : List FrameStats) : ℚ :=
  frac stats fun s => decide (s.person_count ≤ 1 ∧ (1.2 : ℚ) < s.motion_magnitude)

/-- `crowd_ratio`: `people >= 3`. -/
def crowdRatio (stats : List FrameStats) : ℚ :=
  frac (peopleOf stats) fun c => decide (3 ≤ c)

/-- `person_presence_ratio`: `people >= 1`. -/
def personPresenceRatio (stats : List FrameStats) : ℚ :=
  frac (peopleOf stats) fun c => decide (1 ≤ c)

/-- `multi_person_ratio`: `people >= 2`. -/
def multiPersonRatio (stats : List FrameStats) : ℚ :=
  frac (peopleOf stats) fun c => decide (2 ≤ c)

/-- `motion_burst_ratio`: `motions >= burst_threshold`. -/
def motionBurstRatio (stats : List FrameStats) : ℚ :=
  frac (motionsOf stats) fun m => decide (burstThreshold stats ≤ m)

/-- `motion_presence_ratio`: `moving_objects >= 1`. -/
def motionPresenceRatio (stats : List FrameStats) : ℚ :=
  frac (movingObjectsOf stats) fun c => decide (1 ≤ c)

/-- `active_motion_ratio`: `motions >= active_threshold = 0.35`. -/
def activeMotionRatio (stats : List FrameStats) : ℚ :=
  frac (motionsOf stats) fun m => decide ((0.35 : ℚ) ≤ m)

/-- `calm_ratio`. -/
def calmRatio (stats : List FrameStats) : ℚ :=
  0.5 * rawCalmRatio stats + 0.5 * max 0 (1 - activeMotionRatio stats)

/-- `segment = max(1, len(stats) // 3)`. -/
def segmentLen (stats : List FrameStats) : ℕ := max 1 (stats.length / 3)

/-- `early_motions = motions[:segment]`. -/
def earlyMotions (stats : List FrameStats) : List ℚ :=
  (motionsOf stats).take (segmentLen stats)

/-- `late_motions = motions[-segment:]`. -/
def lateMotions (stats : List FrameStats) : List ℚ :=
  (motionsOf stats).drop ((motionsOf stats).length - segmentLen stats)

/-- `late_motion_ratio` with its empty-segment fallback. -/
def lateMotionRatio (stats : List FrameStats) : ℚ :=
  if (lateMotions stats).length ≠ 0 then
    frac (lateMotions stats) fun m => decide ((0.35 : ℚ) ≤ m)
  else activeMotionRatio stats

/-- `motion_trend` with its empty-segment fallback. -/
def motionTrend (stats : List FrameStats) : ℚ :=
  if (earlyMotions stats).length ≠ 0 ∧ (lateMotions stats).length ≠ 0 then
    qmean (lateMotions stats) - qmean (earlyMotions stats)
  else 0

/-- `VideoFeatureExtractor._aggregate`. -/
noncomputable def aggregate (stats : List FrameStats) (metadata : VideoMetadata) :
    VideoFeatures :=
  if stats.isEmpty then
    { average_motion := 0
      peak_motion := 0
      motion_std := 0
      crowd_ratio := 0
      solo_motion_ratio := 0
      motion_burst_ratio := 0
      person_presence_ratio := 0
      multi_person_ratio := 0
      motion_presence_ratio := 0
      active_motion_ratio := 0
      late_motion_ratio := 0
      motion_trend := 0
      calm_ratio := 1
      median_person_count := 0
      mean_person_count := 0
      avg_moving_objects := 0
      max_moving_objects := 0
      duration_seconds := (metadata.duration_seconds : ℝ)
      frame_samples := 0
      fps_estimate := (metadata.fps : ℝ) }
  else
    { average_motion := (qmean (motionsOf stats) : ℝ)
      peak_motion := (qmax (motionsOf stats) : ℝ)
      motion_std := Real.sqrt
        ((qmean ((motionsOf stats).map fun m => (m - qmean (motionsOf stats)) ^ 2) : ℝ))
      crowd_ratio := (crowdRatio stats : ℝ)
      solo_motion_ratio := (soloMotionRatio stats : ℝ)
      motion_burst_ratio := (motionBurstRatio stats : ℝ)
      person_presence_ratio := (personPresenceRatio stats : ℝ)
      multi_person_ratio := (multiPersonRatio stats : ℝ)
      motion_presence_ratio := (motionPresenceRatio stats : ℝ)
      active_motion_ratio := (activeMotionRatio stats : ℝ)
      late_motion_ratio := (lateMotionRatio stats : ℝ)
      motion_trend := (motionTrend stats : ℝ)
      calm_ratio := (calmRatio stats : ℝ)
      median_person_count := (qmedian (peopleOf stats) : ℝ)
      mean_person_count := (qmean (peopleOf stats) : ℝ)
      avg_moving_objects := (qmean (movingObjectsOf stats) : ℝ)
      max_moving_objects := (qmax (movingObjectsOf stats) : ℝ)
      duration_seconds := (metadata.duration_seconds : ℝ)
      frame_samples := stats.length
      fps_estimate := (metadata.fps : ℝ) }

/-! ### Prototype store loading (`prototype_store.PrototypeStore._load`)

The persisted file content is modelled as an optional parsed JSON value:
`none` for a missing file, `some none` for content whose read or parse raised
`OSError`/`json.JSONDecodeError` (both caught by the source), and
`some (some j)` for a successfully parsed payload `j`.  The entry loop of
`_load` runs outside the `try` block, so exceptions it raises propagate. -/

inductive Json where
  | null : Json
  | bool : Bool → Json
  | num : ℚ → Json
  | str : String → Json
  | arr : List Json → Json
  | obj : List (String × Json) → Json

/-- Python exceptions the `_load` entry loop can raise (and does not catch). -/
inductive LoadError where
  | attributeError : LoadError
  | floatConversionError : LoadError
deriving DecidableEq

/-- The prototype samples as loaded, with rational vector entries. -/
structure StoredSample where
  label : String
  vector : List ℚ
  source : Option String
deriving DecidableEq

/-- `dict.get(k)` on a JSON object. -/
def jsonGet (fields : List (String × Json)) (k : String) : Option Json :=
  match fields with
  | [] => none
  | p :: rest => if p.1 = k then some p.2 else jsonGet rest k

/-- Python `float(v)` on a JSON value: numbers and booleans convert, strings
convert when they parse as numbers (integer parsing stands in for the full
float grammar; no claim depends on it), everything else raises. -/
def pyFloat : Json → Except LoadError ℚ
  | .num q => .ok q
  | .bool b => .ok (if b then 1 else 0)
  | .str s =>
      match s.toInt? with
      | some n => .ok (n : ℚ)
      | none => .error .floatConversionError
  | _ => .error .floatConversionError

/-- `[float(v) for v in vector]`. -/
def pyFloatList : List Json → Except LoadError (List ℚ)
  | [] => .ok []
  | v :: rest => do
      let q ← pyFloat v
      let qs ← pyFloatList rest
      .ok (q :: qs)

/-- `entry.get("source")` stored into the sample; non-string sources are
collapsed to `none` in the model (no claim inspects the field). -/
def sourceOf (fields : List (String × Json)) : Option String :=
  match jsonGet fields "source" with
  | some (.str s) => some s
  | _ => none

/-- One iteration of the `_load` entry loop: `entry.get(...)` raises
`AttributeError` on a non-object entry; entries whose label is not a string or
whose vector is not a list are skipped; `float(v)` may raise. -/
def loadEntry : Json → Except LoadError (Option StoredSample)
  | .obj fields =>
      match jsonGet fields "label", jsonGet fields "vector" with
      | some (.str l), some (.arr vs) =>
          match pyFloatList vs with
          | .ok qs => .ok (some ⟨l, qs, sourceOf fields⟩)
          | .error e => .error e
      | _, _ => .ok none
  | _ => .error .attributeError

/-- The whole entry loop. -/
def loadEntries : List Json → Except LoadError (List StoredSample)
  | [] => .ok []
  | entry :: rest => do
      let s ← loadEntry entry
      let ss ← loadEntries rest
      .ok (match s with | some x => x :: ss | none => ss)

/-- `PrototypeStore._load` on the persisted file content (see the section
comment for the encoding of the argument). -/
def pyLoad (content : Option (Option Json)) : Except LoadError (List StoredSample) :=
  match content with
  | none => .ok []
  | some none => .ok []
  | some (some payload) =>
      loadEntries (match payload with | .arr entries => entries | _ => [])

/-! ### Specification-side definitions and concrete fixtures -/

/-- `l` names an entry of the ordered score dict `d` whose value is maximal,
with every strictly earlier entry strictly smaller — the claimed
"argmax with ties resolving to the label encountered first". -/
def isFirstArgmax (d : List (String × ℝ)) (l : String) : Prop :=
  ∃ i, ∃ hi : i < d.length, (d.get ⟨i, hi⟩).1 = l ∧
    (∀ j, ∀ hj : j < d.length, (d.get ⟨j, hj⟩).2 ≤ (d.get ⟨i, hi⟩).2) ∧
    ∀ j, ∀ hj : j < d.length, j < i → (d.get ⟨j, hj⟩).2 < (d.get ⟨i, hi⟩).2

/-- Total similarity mass of a prototype collection against a query vector. -/
noncomputable def totalSim (v : List ℝ) (prototypes : List PrototypeSample) : ℝ :=
  (prototypes.map fun s => similarity v s.vector).sum

/-- Similarity mass accumulated on one label. -/
noncomputable def labelSim (v : List ℝ) (prototypes : List PrototypeSample) (c : String) : ℝ :=
  (prototypes.map fun s => if s.label = c then similarity v s.vector else 0).sum

/-- The accumulation loop of `_prototype_scores`, abstracted over its seed. -/
noncomputable def accumLoop (v : List ℝ) (acc : List (String × ℝ))
    (prototypes : List PrototypeSample) : List (String × ℝ) :=
  prototypes.foldl
    (fun acc s => dictSet acc s.label (dictGetD acc s.label 0 + similarity v s.vector)) acc

/-- The accumulator dict of `_prototype_scores` for a given query vector. -/
noncomputable def protoAccum (v : List ℝ) (P : List PrototypeSample) : List (String × ℝ) :=
  accumLoop v (classesList.map fun c => (c, (0 : ℝ))) P

/-- Modelled from the claim text of C3 (not from the source):
`late_motion_ratio` with segments of exactly `⌊n/3⌋` frames and the stated
fallback to the global active ratio on an empty last segment. -/
def claimLateMotionRatio (stats : List FrameStats) : ℚ :=
  let seg := stats.length / 3
  let late := (motionsOf stats).drop ((motionsOf stats).length - seg)
  if late.length ≠ 0 then frac late fun m => decide ((0.35 : ℚ) ≤ m)
  else activeMotionRatio stats

/-- Modelled from the claim text of C3 (not from the source): `motion_trend`
with segments of exactly `⌊n/3⌋` frames, 0 when either segment is empty. -/
def claimMotionTrend (stats : List FrameStats) : ℚ :=
  let seg := stats.length / 3
  let early := (motionsOf stats).take seg
  let late := (motionsOf stats).drop ((motionsOf stats).length - seg)
  if early.length ≠ 0 ∧ late.length ≠ 0 then qmean late - qmean early else 0

/-- An all-quiet feature record with one analyzed frame. -/
noncomputable def f0 : VideoFeatures :=
  { average_motion := 0, peak_motion := 0, motion_std := 0, crowd_ratio := 0,
    solo_motion_ratio := 0, motion_burst_ratio := 0, person_presence_ratio := 0,
    multi_person_ratio := 0, motion_presence_ratio := 0, active_motion_ratio := 0,
    late_motion_ratio := 0, motion_trend := 0, calm_ratio := 0,
    median_person_count := 0, mean_person_count := 0, avg_moving_objects := 0,
    max_moving_objects := 0, duration_seconds := 0, frame_samples := 1,
    fps_estimate := 0 }

/-- A two-frame measurement sequence: one still frame, one moving frame. -/
def stats2 : List FrameStats :=
  [⟨0, 0, 0, 0, 0⟩, ⟨1, 1, 0, 0, 1⟩]

/-- Metadata fixture. -/
def meta0 : VideoMetadata := ⟨0, 2, 0, 0, 0⟩

/-- A stored prototype identical to the encoding of `f0`, labelled "normal". -/
noncomputable def protoNormal : PrototypeSample :=
  ⟨"normal", build_feature_vector f0, none⟩

/-! ### Lemmas about the ordered-dict model -/

theorem dictKeys_nil : dictKeys [] = [] := rfl

theorem dictKeys_cons (p : String × ℝ) (d : List (String × ℝ)) :
    dictKeys (p :: d) = p.1 :: dictKeys d := rfl

theorem dictGetD_dictSet_self (d : List (String × ℝ)) (k : String) (v w : ℝ) :
    dictGetD (dictSet d k v) k w = v := by
  induction d with
  | nil => simp [dictSet, dictGetD]
  | cons p rest ih =>
      by_cases h : p.1 = k
      · simp [dictSet, dictGetD, h]
      · simp [dictSet, dictGetD, h, ih]

theorem dictGetD_dictSet_ne (d : List (String × ℝ)) {k k' : String} (h : k ≠ k') (v w : ℝ) :
    dictGetD (dictSet d k v) k' w = dictGetD d k' w := by
  induction d with
  | nil => simp [dictSet, dictGetD, h]
  | cons p rest ih =>
      by_cases hp : p.1 = k
      · simp [dictSet, dictGetD, hp, h, ih]
      · simp only [dictSet, hp, if_false, dictGetD]
        by_cases hp' : p.1 = k'
        · simp [hp']
        · simp [hp', ih]

theorem dictKeys_dictSet_of_mem (d : List (String × ℝ)) {k : String} (v : ℝ)
    (h : k ∈ dictKeys d) : dictKeys (dictSet d k v) = dictKeys d := by
  induction d with
  | nil => simp [dictKeys] at h
  | cons p rest ih =>
      rw [dictKeys_cons] at h
      by_cases hp : p.1 = k
      · simp [dictSet, hp, dictKeys_cons]
      · have h' : k ∈ dictKeys rest := by
          rcases List.mem_cons.mp h with h1 | h1
          · exact absurd h1.symm hp
          · exact h1
        simp only [dictSet, if_neg hp]
        rw [dictKeys_cons, dictKeys_cons, ih h']

theorem mem_dictKeys_dictSet (d : List (String × ℝ)) (k k' : String) (v : ℝ) :
    k' ∈ dictKeys (dictSet d k v) ↔ k' = k ∨ k' ∈ dictKeys d := by
  induction d with
  | nil => simp [dictSet, dictKeys]
  | cons p rest ih =>
      by_cases hp : p.1 = k
      · rw [show dictSet (p :: rest) k v = (p.1, v) :: rest by simp [dictSet, hp]]
        rw [dictKeys_cons, dictKeys_cons]
        simp only [List.mem_cons, hp]
        tauto
      · simp only [dictSet, if_neg hp, dictKeys_cons, List.mem_cons, ih]
        tauto

theorem dictSum_nil : dictSum [] = 0 := rfl

theorem dictSum_dictSet_add (d : List (String × ℝ)) (k : String) (x : ℝ) :
    dictSum (dictSet d k (dictGetD d k 0 + x)) = dictSum d + x := by
  induction d with
  | nil => simp [dictSet, dictGetD, dictSum]
  | cons p rest ih =>
      by_cases hp : p.1 = k
      · simp only [dictSet, dictGetD, hp, if_true, if_pos rfl]
        simp [dictSum]
        ring
      · simp only [dictSet, dictGetD, hp, if_false, if_neg hp]
        simp only [dictSum, List.map_cons, List.sum_cons] at *
        rw [ih]
        ring

theorem dictGetD_map_div (d : List (String × ℝ)) (t : ℝ) (k : String) :
    dictGetD (d.map fun p => (p.1, p.2 / t)) k 0 = dictGetD d k 0 / t := by
  induction d with
  | nil => simp [dictGetD]
  | cons p rest ih =>
      by_cases hp : p.1 = k
      · simp [dictGetD, hp]
      · simp [dictGetD, hp, ih]

theorem dictKeys_map_div (d : List (String × ℝ)) (t : ℝ) :
    dictKeys (d.map fun p => (p.1, p.2 / t)) = dictKeys d := by
  induction d with
  | nil => rfl
  | cons p rest ih => simp only [List.map_cons, dictKeys_cons, ih]

/-! ### Python `max(d, key=d.get)` takes the first maximal key -/

theorem maxKeyAux_isFirstArgmax (rest : List (String × ℝ)) :
    ∀ best : String × ℝ, isFirstArgmax (best :: rest) (maxKeyAux best rest) := by
  induction rest with
  | nil =>
      intro best
      refine ⟨0, by simp, rfl, ?_, ?_⟩
      · intro j hj
        have hj0 : j = 0 := Nat.lt_one_iff.mp (by simpa using hj)
        subst hj0
        exact le_refl _
      · intro j hj hj0
        exact absurd hj0 (Nat.not_lt_zero j)
  | cons q t ih =>
      intro best
      show isFirstArgmax (best :: q :: t)
        (if best.2 < q.2 then maxKeyAux q t else maxKeyAux best t)
      by_cases hlt : best.2 < q.2
      · rw [if_pos hlt]
        obtain ⟨i, hi, hget, hle, hstrict⟩ := ih q
        refine ⟨i + 1, by simp only [List.length_cons] at hi ⊢; omega, hget, ?_, ?_⟩
        · intro j hj
          match j, hj with
          | 0, hj => exact le_trans (le_of_lt hlt) (hle 0 (by simp))
          | j' + 1, hj =>
              exact hle j' (by simp only [List.length_cons] at hj ⊢; omega)
        · intro j hj hji
          match j, hj with
          | 0, hj => exact lt_of_lt_of_le hlt (hle 0 (by simp))
          | j' + 1, hj =>
              exact hstrict j' (by simp only [List.length_cons] at hj ⊢; omega) (by omega)
      · rw [if_neg hlt]
        have hq : q.2 ≤ best.2 := le_of_not_lt hlt
        obtain ⟨i, hi, hget, hle, hstrict⟩ := ih best
        match i, hi with
        | 0, hi =>
            refine ⟨0, by simp, hget, ?_, ?_⟩
            · intro j hj
              match j, hj with
              | 0, hj => exact le_refl _
              | 1, hj => exact hq
              | j' + 2, hj =>
                  exact hle (j' + 1) (by simp only [List.length_cons] at hj ⊢; omega)
            · intro j hj hji
              exact absurd hji (Nat.not_lt_zero j)
        | i' + 1, hi =>
            refine ⟨i' + 2, by simp only [List.length_cons] at hi ⊢; omega, hget, ?_, ?_⟩
            · intro j hj
              match j, hj with
              | 0, hj => exact hle 0 (by simp)
              | 1, hj => exact le_trans hq (hle 0 (by simp))
              | j' + 2, hj =>
                  exact hle (j' + 1) (by simp only [List.length_cons] at hj ⊢; omega)
            · intro j hj hji
              match j, hj with
              | 0, hj => exact hstrict 0 (by simp) (by omega)
              | 1, hj => exact lt_of_le_of_lt hq (hstrict 0 (by simp) (by omega))
              | j' + 2, hj =>
                  exact hstrict (j' + 1)
                    (by simp only [List.length_cons] at hj ⊢; omega) (by omega)

theorem dictMaxKey_isFirstArgmax (p : String × ℝ) (rest : List (String × ℝ)) :
    isFirstArgmax (p :: rest) ((dictMaxKey (p :: rest)).getD "") := by
  show isFirstArgmax (p :: rest) (maxKeyAux p rest)
  exact maxKeyAux_isFirstArgmax rest p

/-! ### Lemmas about the bonus-update loop -/

theorem addBonuses_error_keyError {s b : List (String × ℝ)} {e : ClassifierError}
    (h : addBonuses s b = .error e) : ∃ k, e = .keyError k := by
  induction b generalizing s with
  | nil => simp [addBonuses] at h
  | cons p rest ih =>
      rw [addBonuses] at h
      by_cases hc : (dictKeys s).contains p.1
      · rw [if_pos hc] at h
        exact ih h
      · rw [if_neg hc] at h
        exact ⟨p.1, by injection h with h; exact h.symm⟩

theorem addBonuses_ok_keys {s s' b : List (String × ℝ)}
    (h : addBonuses s b = .ok s') : dictKeys s' = dictKeys s := by
  induction b generalizing s with
  | nil => simp [addBonuses] at h; rw [h]
  | cons p rest ih =>
      rw [addBonuses] at h
      by_cases hc : (dictKeys s).contains p.1
      · rw [if_pos hc] at h
        have hmem : p.1 ∈ dictKeys s := List.elem_iff.mp hc
        rw [ih h, dictKeys_dictSet_of_mem _ _ hmem]
      · rw [if_neg hc] at h
        exact absurd h (by simp)

theorem addBonuses_ok_of_keys_subset {s : List (String × ℝ)} {b : List (String × ℝ)}
    (hsub : ∀ k ∈ dictKeys b, k ∈ dictKeys s) :
    ∃ s', addBonuses s b = .ok s' := by
  induction b generalizing s with
  | nil => exact ⟨s, rfl⟩
  | cons p rest ih =>
      have hmem : p.1 ∈ dictKeys s := hsub p.1 (by simp [dictKeys_cons])
      have hc : (dictKeys s).contains p.1 := List.elem_iff.mpr hmem
      rw [addBonuses, if_pos hc]
      refine ih fun k hk => ?_
      rw [dictKeys_dictSet_of_mem _ _ hmem]
      exact hsub k (by simp [dictKeys_cons]; right; exact hk)

theorem addBonuses_error_of_missing_key {s b : List (String × ℝ)}
    (hmiss : ∃ k ∈ dictKeys b, k ∉ dictKeys s) :
    ∃ k, k ∉ dictKeys s ∧ addBonuses s b = .error (.keyError k) := by
  induction b generalizing s with
  | nil => simp [dictKeys] at hmiss
  | cons p rest ih =>
      by_cases hc : p.1 ∈ dictKeys s
      · have hcb : (dictKeys s).contains p.1 := List.elem_iff.mpr hc
        obtain ⟨k, hk, hks⟩ := hmiss
        have hkrest : k ∈ dictKeys rest := by
          rcases List.mem_cons.mp (by simpa [dictKeys_cons] using hk) with h1 | h1
          · exact absurd (h1 ▸ hc) hks
          · exact h1
        have hkeys : dictKeys (dictSet s p.1 (dictGetD s p.1 0 + 0.2 * p.2)) = dictKeys s :=
          dictKeys_dictSet_of_mem _ _ hc
        obtain ⟨k', hk', herr⟩ := ih (s := dictSet s p.1 (dictGetD s p.1 0 + 0.2 * p.2))
          ⟨k, hkrest, by rw [hkeys]; exact hks⟩
        refine ⟨k', by rwa [hkeys] at hk', ?_⟩
        rw [addBonuses, if_pos hcb]
        exact herr
      · have hcb : ¬ (dictKeys s).contains p.1 := fun hcontra =>
          hc (List.elem_iff.mp hcontra)
        exact ⟨p.1, hc, by rw [addBonuses, if_neg hcb]⟩

theorem addBonuses_ok_getD {s s' b : List (String × ℝ)}
    (h : addBonuses s b = .ok s') (hnd : (dictKeys b).Nodup) (c : String) :
    dictGetD s' c 0 =
      dictGetD s c 0 + (if c ∈ dictKeys b then 0.2 * dictGetD b c 0 else 0) := by
  induction b generalizing s with
  | nil =>
      simp only [addBonuses] at h
      injection h with h
      simp [h, dictKeys]
  | cons p rest ih =>
      rw [addBonuses] at h
      by_cases hc : (dictKeys s).contains p.1
      · rw [if_pos hc] at h
        rw [dictKeys_cons] at hnd
        have hnd' : (dictKeys rest).Nodup := hnd.of_cons
        have hp1 : p.1 ∉ dictKeys rest := by
          intro hcontra
          exact (List.nodup_cons.mp hnd).1 hcontra
        by_cases hcp : c = p.1
        · subst hcp
          rw [ih h hnd']
          rw [if_neg hp1, dictGetD_dictSet_self]
          rw [dictKeys_cons]
          simp [dictGetD]
        · rw [ih h hnd']
          rw [dictGetD_dictSet_ne _ (fun he => hcp he.symm)]
          rw [dictKeys_cons]
          have : dictGetD (p :: rest) c 0 = dictGetD rest c 0 := by
            show (if p.1 = c then p.2 else dictGetD rest c 0) = _
            exact if_neg fun he => hcp he.symm
          simp only [List.mem_cons, this]
          by_cases hcr : c ∈ dictKeys rest
          · simp [hcr, hcp]
          · simp [hcr, hcp]
      · rw [if_neg hc] at h
        exact absurd h (by simp)

/-! ### Similarity and prototype-accumulation lemmas -/

theorem similarity_nonneg (a b : List ℝ) : 0 ≤ similarity a b := by
  rw [similarity]
  split
  · exact le_refl 0
  · exact (Real.exp_pos _).le

theorem zip_self_sq_sum (a : List ℝ) : ((a.zip a).map fun p => (p.1 - p.2) ^ 2).sum = 0 := by
  induction a with
  | nil => simp
  | cons x t ih => simp [List.zip_cons_cons, ih]

theorem similarity_self {a : List ℝ} (h : a ≠ []) : similarity a a = 1 := by
  have hsum : ((a.zip a).map fun p => (p.1 - p.2) ^ 2).sum = 0 := zip_self_sq_sum a
  rw [similarity]
  rw [if_neg (by simp [List.isEmpty_iff, h])]
  rw [hsum, Real.sqrt_zero, mul_zero, Real.exp_zero]

theorem labelSim_nonneg (v : List ℝ) (P : List PrototypeSample) (c : String) :
    0 ≤ labelSim v P c := by
  refine List.sum_nonneg ?_
  intro x hx
  obtain ⟨s, _, hs⟩ := List.mem_map.mp hx
  rw [← hs]
  split
  · exact similarity_nonneg _ _
  · exact le_refl 0

theorem totalSim_nonneg (v : List ℝ) (P : List PrototypeSample) : 0 ≤ totalSim v P := by
  refine List.sum_nonneg ?_
  intro x hx
  obtain ⟨s, _, hs⟩ := List.mem_map.mp hx
  rw [← hs]
  exact similarity_nonneg _ _

theorem labelSim_le_totalSim (v : List ℝ) (P : List PrototypeSample) (c : String) :
    labelSim v P c ≤ totalSim v P := by
  rw [labelSim, totalSim]
  refine List.sum_le_sum ?_
  intro s _
  split
  · exact le_refl _
  · exact similarity_nonneg _ _

/-- A positive-similarity prototype on another label forces strict slack
between `labelSim` and `totalSim`. -/
theorem labelSim_add_lt_totalSim (v : List ℝ) {P : List PrototypeSample} {c : String}
    {s₀ : PrototypeSample} (hs₀ : s₀ ∈ P) (hlab : s₀.label ≠ c)
    (hpos : 0 < similarity v s₀.vector) : labelSim v P c < totalSim v P := by
  induction P with
  | nil => cases hs₀
  | cons s P ih =>
      rw [labelSim, totalSim, List.map_cons, List.map_cons, List.sum_cons, List.sum_cons]
      rcases List.mem_cons.mp hs₀ with h1 | h1
      · subst h1
        rw [if_neg hlab]
        have h2 : labelSim v P c ≤ totalSim v P := labelSim_le_totalSim v P c
        rw [labelSim, totalSim] at h2
        linarith
      · have h2 := ih h1
        rw [labelSim, totalSim] at h2
        have h3 : (if s.label = c then similarity v s.vector else 0) ≤ similarity v s.vector := by
          split
          · exact le_refl _
          · exact similarity_nonneg _ _
        linarith

theorem totalSim_append_single (v : List ℝ) (P : List PrototypeSample) (s : PrototypeSample) :
    totalSim v (P ++ [s]) = totalSim v P + similarity v s.vector := by
  simp [totalSim]

theorem labelSim_append_same (v : List ℝ) (P : List PrototypeSample) (w : List ℝ) (L : String) :
    labelSim v (P ++ [⟨L, w, none⟩]) L = labelSim v P L + similarity v w := by
  simp [labelSim]

theorem labelSim_cons (v : List ℝ) (s : PrototypeSample) (P : List PrototypeSample) (c : String) :
    labelSim v (s :: P) c = (if s.label = c then similarity v s.vector else 0) + labelSim v P c := by
  simp [labelSim]

theorem totalSim_cons (v : List ℝ) (s : PrototypeSample) (P : List PrototypeSample) :
    totalSim v (s :: P) = similarity v s.vector + totalSim v P := by
  simp [totalSim]

/-- The seed dict `{label: 0.0 for label in classes}` reads zero everywhere. -/
theorem dictGetD_zero_seed (l : List String) (c : String) :
    dictGetD (l.map fun c => (c, (0 : ℝ))) c 0 = 0 := by
  induction l with
  | nil => rfl
  | cons a t ih =>
      by_cases h : a = c
      · simp [dictGetD, h]
      · simp [dictGetD, h, ih]

theorem dictKeys_zero_seed (l : List String) :
    dictKeys (l.map fun c => (c, (0 : ℝ))) = l := by
  induction l with
  | nil => rfl
  | cons a t ih => simp only [List.map_cons, dictKeys_cons, ih]

theorem dictSum_zero_seed (l : List String) :
    dictSum (l.map fun c => (c, (0 : ℝ))) = 0 := by
  induction l with
  | nil => rfl
  | cons a t ih => simp only [List.map_cons, dictSum, List.sum_cons] at ih ⊢; simpa using ih

theorem accumLoop_getD (v : List ℝ) (P : List PrototypeSample) :
    ∀ acc c, dictGetD (accumLoop v acc P) c 0 = dictGetD acc c 0 + labelSim v P c := by
  induction P with
  | nil => intro acc c; simp [accumLoop, labelSim]
  | cons s P ih =>
      intro acc c
      rw [accumLoop, List.foldl_cons, ← accumLoop, ih, labelSim_cons]
      by_cases hsc : s.label = c
      · rw [hsc, dictGetD_dictSet_self, if_pos rfl]
        ring
      · rw [dictGetD_dictSet_ne _ hsc, if_neg hsc]
        ring

theorem accumLoop_sum (v : List ℝ) (P : List PrototypeSample) :
    ∀ acc, dictSum (accumLoop v acc P) = dictSum acc + totalSim v P := by
  induction P with
  | nil => intro acc; simp [accumLoop, totalSim]
  | cons s P ih =>
      intro acc
      rw [accumLoop, List.foldl_cons, ← accumLoop, ih, dictSum_dictSet_add, totalSim_cons]
      ring

theorem accumLoop_keys_of_subset (v : List ℝ) (P : List PrototypeSample) :
    ∀ acc, (∀ s ∈ P, s.label ∈ dictKeys acc) → dictKeys (accumLoop v acc P) = dictKeys acc := by
  induction P with
  | nil => intro acc _; rfl
  | cons s P ih =>
      intro acc hsub
      have hmem : s.label ∈ dictKeys acc := hsub s (by simp)
      rw [accumLoop, List.foldl_cons, ← accumLoop]
      rw [ih _ fun t ht => ?_, dictKeys_dictSet_of_mem _ _ hmem]
      rw [dictKeys_dictSet_of_mem _ _ hmem]
      exact hsub t (by simp [ht])

theorem mem_accumLoop_keys_of_mem_labels (v : List ℝ) (P : List PrototypeSample) :
    ∀ acc, ∀ s ∈ P, s.label ∈ dictKeys (accumLoop v acc P) := by
  have hmono : ∀ (P : List PrototypeSample) (acc : List (String × ℝ)) (k : String),
      k ∈ dictKeys acc → k ∈ dictKeys (accumLoop v acc P) := by
    intro P
    induction P with
    | nil => intro acc k hk; exact hk
    | cons s P ih =>
        intro acc k hk
        rw [accumLoop, List.foldl_cons, ← accumLoop]
        exact ih _ _ ((mem_dictKeys_dictSet _ _ _ _).mpr (Or.inr hk))
  induction P with
  | nil => intro acc s hs; cases hs
  | cons t P ih =>
      intro acc s hs
      rcases List.mem_cons.mp hs with h1 | h1
      · subst h1
        rw [accumLoop, List.foldl_cons, ← accumLoop]
        exact hmono _ _ _ ((mem_dictKeys_dictSet _ _ _ _).mpr (Or.inl rfl))
      · rw [accumLoop, List.foldl_cons, ← accumLoop]
        exact ih _ s h1

/-! ### Structural lemmas about `classify` -/

theorem dictKeys_heuristicScores (f : VideoFeatures) :
    dictKeys (heuristicScores f) = classesList := rfl

/-- Unfolding of `classify` once the frame-sample guard passes. -/
theorem classify_of_pos (P : List PrototypeSample) {f : VideoFeatures} (path : Option String)
    (h0 : f.frame_samples ≠ 0) :
    classify P f path =
      (match addBonuses (heuristicScores f) (prototypeScores P f) with
      | .error e => .error e
      | .ok scores =>
          let label :=
            match filenameOverride path with
            | some hint => hint.1
            | none => (dictMaxKey scores).getD ""
          .ok ⟨label, scores, buildExplanation label⟩) := by
  rw [classify, if_neg h0]

theorem protoAccum_sum (v : List ℝ) (P : List PrototypeSample) :
    dictSum (protoAccum v P) = totalSim v P := by
  rw [protoAccum, accumLoop_sum, dictSum_zero_seed, zero_add]

theorem protoAccum_getD (v : List ℝ) (P : List PrototypeSample) (c : String) :
    dictGetD (protoAccum v P) c 0 = labelSim v P c := by
  rw [protoAccum, accumLoop_getD, dictGetD_zero_seed, zero_add]

theorem protoAccum_keys (v : List ℝ) {P : List PrototypeSample}
    (hP : ∀ s ∈ P, s.label ∈ classesList) : dictKeys (protoAccum v P) = classesList := by
  rw [protoAccum, accumLoop_keys_of_subset, dictKeys_zero_seed]
  intro s hs
  rw [dictKeys_zero_seed]
  exact hP s hs

theorem prototypeScores_eq {P : List PrototypeSample} (f : VideoFeatures) (hne : P ≠ []) :
    prototypeScores P f =
      (if dictSum (protoAccum (build_feature_vector f) P) ≤ 0 then []
       else (protoAccum (build_feature_vector f) P).map
         fun p => (p.1, p.2 / dictSum (protoAccum (build_feature_vector f) P))) := by
  rw [prototypeScores, if_neg (by simp [List.isEmpty_iff, hne])]
  rfl

theorem prototypeScores_of_nonpos {P : List PrototypeSample} (f : VideoFeatures)
    (hle : totalSim (build_feature_vector f) P ≤ 0) : prototypeScores P f = [] := by
  rcases eq_or_ne P [] with h | h
  · rw [h, prototypeScores]
    rfl
  · rw [prototypeScores_eq f h, if_pos (by rw [protoAccum_sum]; exact hle)]

theorem prototypeScores_of_pos {P : List PrototypeSample} (f : VideoFeatures)
    (hpos : 0 < totalSim (build_feature_vector f) P) :
    prototypeScores P f =
      (protoAccum (build_feature_vector f) P).map
        fun p => (p.1, p.2 / totalSim (build_feature_vector f) P) := by
  have hne : P ≠ [] := by
    intro hc
    rw [hc] at hpos
    simp [totalSim] at hpos
  rw [prototypeScores_eq f hne, protoAccum_sum, if_neg (not_le.mpr hpos)]

/-- `classify` once the bonus loop is known to succeed. -/
theorem classify_ok_of_addBonuses {P : List PrototypeSample} {f : VideoFeatures}
    {s' : List (String × ℝ)} (path : Option String) (h0 : f.frame_samples ≠ 0)
    (hs' : addBonuses (heuristicScores f) (prototypeScores P f) = .ok s') :
    classify P f path =
      .ok ⟨(match filenameOverride path with
            | some hint => hint.1
            | none => (dictMaxKey s').getD ""), s',
           buildExplanation (match filenameOverride path with
            | some hint => hint.1
            | none => (dictMaxKey s').getD "")⟩ := by
  rw [classify_of_pos P path h0, hs']

/-- `classify` once the bonus loop is known to fail. -/
theorem classify_error_of_addBonuses {P : List PrototypeSample} {f : VideoFeatures}
    {e : ClassifierError} (path : Option String) (h0 : f.frame_samples ≠ 0)
    (haddb : addBonuses (heuristicScores f) (prototypeScores P f) = .error e) :
    classify P f path = .error e := by
  rw [classify_of_pos P path h0, haddb]

/-- When the frame guard passes and every prototype label is one of the six
classes, `classify` succeeds, the result's score dict carries exactly the six
class keys, and each label's score is the heuristic score plus the normalized
prototype bonus. -/
theorem classify_ok_formula (P : List PrototypeSample) (f : VideoFeatures) (path : Option String)
    (h0 : f.frame_samples ≠ 0) (hP : ∀ s ∈ P, s.label ∈ classesList) :
    ∃ r, classify P f path = .ok r ∧ dictKeys r.scores = classesList ∧
      ∀ L, dictGetD r.scores L 0 =
        dictGetD (heuristicScores f) L 0 +
          (if 0 < totalSim (build_feature_vector f) P ∧ L ∈ classesList
           then 0.2 * (labelSim (build_feature_vector f) P L / totalSim (build_feature_vector f) P)
           else 0) := by
  by_cases hpos : 0 < totalSim (build_feature_vector f) P
  · have hbonus := prototypeScores_of_pos f hpos
    have hkeysb : dictKeys (prototypeScores P f) = classesList := by
      rw [hbonus, dictKeys_map_div, protoAccum_keys _ hP]
    obtain ⟨s', hs'⟩ := addBonuses_ok_of_keys_subset
      (s := heuristicScores f) (b := prototypeScores P f)
      (by rw [hkeysb, dictKeys_heuristicScores]; exact fun k hk => hk)
    have hkeys : dictKeys s' = classesList := by
      rw [addBonuses_ok_keys hs', dictKeys_heuristicScores]
    have hval : ∀ L, dictGetD s' L 0 =
        dictGetD (heuristicScores f) L 0 +
          (if 0 < totalSim (build_feature_vector f) P ∧ L ∈ classesList
           then 0.2 * (labelSim (build_feature_vector f) P L / totalSim (build_feature_vector f) P)
           else 0) := by
      intro L
      rw [addBonuses_ok_getD hs' (by rw [hkeysb]; decide) L, hkeysb]
      by_cases hL : L ∈ classesList
      · rw [if_pos hL, if_pos ⟨hpos, hL⟩, hbonus, dictGetD_map_div, protoAccum_getD]
      · rw [if_neg hL, if_neg (by intro hc; exact hL hc.2)]
    exact ⟨_, classify_ok_of_addBonuses path h0 hs', hkeys, hval⟩
  · have hbonus := prototypeScores_of_nonpos f (not_lt.mp hpos)
    have hs' : addBonuses (heuristicScores f) (prototypeScores P f) = .ok (heuristicScores f) := by
      rw [hbonus]
      rfl
    have hval : ∀ L, dictGetD (heuristicScores f) L 0 =
        dictGetD (heuristicScores f) L 0 +
          (if 0 < totalSim (build_feature_vector f) P ∧ L ∈ classesList
           then 0.2 * (labelSim (build_feature_vector f) P L / totalSim (build_feature_vector f) P)
           else 0) := by
      intro L
      rw [if_neg (by intro hc; exact hpos hc.1), add_zero]
    exact ⟨_, classify_ok_of_addBonuses path h0 hs', dictKeys_heuristicScores f, hval⟩

/-! ### Assorted helper lemmas -/

theorem build_feature_vector_length (f : VideoFeatures) :
    (build_feature_vector f).length = 12 := by
  rw [build_feature_vector, List.length_map]
  rfl

theorem build_feature_vector_ne_nil (f : VideoFeatures) : build_feature_vector f ≠ [] := by
  intro h
  have h12 := build_feature_vector_length f
  rw [h] at h12
  simp at h12

theorem frac_nonneg {α : Type} (l : List α) (p : α → Bool) : 0 ≤ frac l p := by
  rw [frac]
  exact div_nonneg (Nat.cast_nonneg _) (Nat.cast_nonneg _)

theorem frac_le_one {α : Type} (l : List α) (p : α → Bool) : frac l p ≤ 1 := by
  rw [frac]
  rcases Nat.eq_zero_or_pos l.length with h | h
  · rw [h]
    simp
  · rw [div_le_one (by exact_mod_cast h)]
    exact_mod_cast List.countP_le_length (p := p)

theorem charsContain_iff (h n : List Char) : charsContain h n = true ↔ n <:+: h := by
  induction h with
  | nil =>
      rw [charsContain]
      simp [List.isEmpty_iff]
  | cons c t ih =>
      rw [charsContain]
      simp only [Bool.or_eq_true, ih, List.isPrefixOf_iff_prefix]
      exact (List.infix_cons_iff).symm

/-! ### Claim C1 -/

/-- Claim C1: `classify` fails with the insufficient-data error exactly when
`frame_samples = 0`, for every prototype collection and filename hint; with
`frame_samples > 0` it never fails that way. -/
theorem c1_classify_insufficient_iff (P : List PrototypeSample) (f : VideoFeatures)
    (path : Option String) :
    classify P f path = .error .insufficientData ↔ f.frame_samples = 0 := by
  constructor
  · intro h
    by_contra h0
    cases haddb : addBonuses (heuristicScores f) (prototypeScores P f) with
    | error e =>
        have h2 := (classify_error_of_addBonuses path h0 haddb).symm.trans h
        obtain ⟨k, hk⟩ := addBonuses_error_keyError haddb
        rw [hk] at h2
        injection h2 with h3
        exact ClassifierError.noConfusion h3
    | ok s' =>
        rw [classify_ok_of_addBonuses path h0 haddb] at h
        exact absurd h (by simp)
  · intro h
    rw [classify, if_pos h]

/-! ### Claim C10 -/

/-- Claim C10: `_similarity` returns 0 whenever either vector is empty or the
lengths differ; hence a stored prototype vector without the 12-component
dimension of the current encoding contributes zero similarity. -/
theorem c10_similarity_guard :
    (∀ a b : List ℝ, a = [] ∨ b = [] ∨ a.length ≠ b.length → similarity a b = 0) ∧
    (∀ (f : VideoFeatures) (w : List ℝ), w.length ≠ 12 →
      similarity (build_feature_vector f) w = 0) := by
  have h1 : ∀ a b : List ℝ, a = [] ∨ b = [] ∨ a.length ≠ b.length → similarity a b = 0 := by
    intro a b h
    have hcond : (a.isEmpty || b.isEmpty || (a.length != b.length)) = true := by
      rcases h with h | h | h
      · simp [h]
      · simp [h]
      · simp [h]
    rw [similarity, if_pos hcond]
  refine ⟨h1, fun f w hw => h1 _ _ (Or.inr (Or.inr ?_))⟩
  rw [build_feature_vector_length]
  exact fun hc => hw hc.symm

/-- Witness for C10 at concrete inputs. -/
theorem c10_similarity_guard_witness :
    similarity [] [(1 : ℝ)] = 0 ∧ similarity (build_feature_vector f0) [(0 : ℝ), 1] = 0 :=
  ⟨c10_similarity_guard.1 [] [1] (Or.inl rfl),
   c10_similarity_guard.2 f0 [0, 1] (by decide)⟩

/-! ### Claim C7 -/

/-- Claim C7: `build_feature_vector` produces exactly the 12 clamped scaled
components in the fixed field order, deterministically (it is a function of
the record alone), and every component lies in [-2, 2]. -/
theorem c7_build_feature_vector_spec (f : VideoFeatures) :
    build_feature_vector f =
      [max (-2) (min 2 (f.average_motion / 5)),
       max (-2) (min 2 (f.peak_motion / 10)),
       max (-2) (min 2 (f.motion_std / 5)),
       max (-2) (min 2 (f.crowd_ratio / 1)),
       max (-2) (min 2 (f.motion_burst_ratio / 1)),
       max (-2) (min 2 (f.person_presence_ratio / 1)),
       max (-2) (min 2 (f.active_motion_ratio / 1)),
       max (-2) (min 2 (f.late_motion_ratio / 1)),
       max (-2) (min 2 (f.avg_moving_objects / 4)),
       max (-2) (min 2 (f.max_moving_objects / 6)),
       max (-2) (min 2 (f.calm_ratio / 1)),
       max (-2) (min 2 (f.multi_person_ratio / 1))] ∧
    (build_feature_vector f).length = 12 ∧
    ∀ i : Fin (build_feature_vector f).length,
      -2 ≤ (build_feature_vector f).get i ∧ (build_feature_vector f).get i ≤ 2 := by
  refine ⟨?_, build_feature_vector_length f, ?_⟩
  · norm_num [build_feature_vector, FEATURE_VECTOR_FIELDS]
  · intro i
    have hmem : (build_feature_vector f).get i ∈ build_feature_vector f :=
      List.get_mem (build_feature_vector f) i.1 i.2
    have hmem' : (build_feature_vector f).get i ∈
        FEATURE_VECTOR_FIELDS.map fun fs =>
          let value := fs.1 f
          let normalized := if fs.2 = 0 then value else value / fs.2
          max (-2) (min 2 normalized) := hmem
    obtain ⟨fs, _, hfs⟩ := List.mem_map.mp hmem'
    constructor
    · rw [← hfs]
      exact le_max_left _ _
    · rw [← hfs]
      exact max_le (by norm_num) (min_le_left _ _)

/-! ### Claim C4 -/

/-- Claim C4 failing input: a missing file and an unparseable file both load as
the empty collection (the caught error classes), but a parsed payload whose
list contains a non-object entry (here `null`) raises `AttributeError` from
`entry.get`, which `_load` does not catch — loading does propagate a failure
for some malformed contents. -/
theorem c4_load_raises_on_nonobject_entry :
    pyLoad none = .ok [] ∧ pyLoad (some none) = .ok [] ∧
    pyLoad (some (some (.arr [.null]))) = .error .attributeError :=
  ⟨rfl, rfl, rfl⟩

/-! ### Claim C2 -/

/-- Claim C2: every classification result produced without a filename override
carries scores for exactly the six fixed class labels (in class order), and
its label is the first maximal entry of that score dict — argmax with ties
resolving to the label encountered first in the fixed class iteration order. -/
theorem c2_scores_keys_argmax (P : List PrototypeSample) (f : VideoFeatures)
    (path : Option String) (r : ClassificationResult)
    (hr : classify P f path = .ok r) (hov : filenameOverride path = none) :
    dictKeys r.scores = classesList ∧ isFirstArgmax r.scores r.label := by
  by_cases h0 : f.frame_samples = 0
  · rw [classify, if_pos h0] at hr
    exact absurd hr (by simp)
  · cases haddb : addBonuses (heuristicScores f) (prototypeScores P f) with
    | error e =>
        rw [classify_error_of_addBonuses path h0 haddb] at hr
        exact absurd hr (by simp)
    | ok s' =>
        rw [classify_ok_of_addBonuses path h0 haddb, hov] at hr
        injection hr with hr
        have hkeys : dictKeys s' = classesList := by
          rw [addBonuses_ok_keys haddb, dictKeys_heuristicScores]
        subst hr
        refine ⟨hkeys, ?_⟩
        show isFirstArgmax s' ((dictMaxKey s').getD "")
        cases s' with
        | nil =>
            rw [dictKeys_nil] at hkeys
            exact absurd hkeys (by decide)
        | cons phead ptail => exact dictMaxKey_isFirstArgmax phead ptail

/-- Witness for C2: a concrete successful classification without override. -/
theorem c2_scores_keys_argmax_witness :
    ∃ r, classify [] f0 none = .ok r ∧ dictKeys r.scores = classesList ∧
      isFirstArgmax r.scores r.label := by
  obtain ⟨r, hr, -, -⟩ := classify_ok_formula [] f0 none (by decide) (by simp)
  obtain ⟨hk, ha⟩ := c2_scores_keys_argmax [] f0 none r hr rfl
  exact ⟨r, hr, hk, ha⟩

/-! ### Claim C9 -/

/-- Claim C9: when classification reaches the bonus step with a non-empty
prototype collection of positive total similarity containing a label outside
the six fixed classes, `classify` raises an unhandled `KeyError` at a foreign
label instead of ignoring it or completing. -/
theorem c9_foreign_label_keyerror (P : List PrototypeSample) (f : VideoFeatures)
    (path : Option String) (h0 : f.frame_samples ≠ 0)
    (hpos : 0 < totalSim (build_feature_vector f) P)
    (hforeign : ∃ s ∈ P, s.label ∉ classesList) :
    ∃ k, k ∉ classesList ∧ classify P f path = .error (.keyError k) := by
  obtain ⟨s₀, hs₀, hlab⟩ := hforeign
  have hbonus := prototypeScores_of_pos f hpos
  have hmem : s₀.label ∈ dictKeys (prototypeScores P f) := by
    rw [hbonus, dictKeys_map_div, protoAccum]
    exact mem_accumLoop_keys_of_mem_labels _ P _ s₀ hs₀
  obtain ⟨k, hk, herr⟩ := addBonuses_error_of_missing_key
    (s := heuristicScores f) (b := prototypeScores P f)
    ⟨s₀.label, hmem, by rw [dictKeys_heuristicScores]; exact hlab⟩
  refine ⟨k, by rwa [dictKeys_heuristicScores] at hk, ?_⟩
  exact classify_error_of_addBonuses path h0 herr

/-- Witness for C9: one foreign-labelled prototype identical to the encoding
of the query record. -/
theorem c9_foreign_label_keyerror_witness :
    ∃ k, k ∉ classesList ∧
      classify [⟨"cat", build_feature_vector f0, none⟩] f0 none = .error (.keyError k) := by
  refine c9_foreign_label_keyerror [⟨"cat", build_feature_vector f0, none⟩] f0 none
    (by decide) ?_ ?_
  · rw [totalSim]
    simp only [List.map_cons, List.map_nil, List.sum_cons, List.sum_nil, add_zero]
    rw [similarity_self (build_feature_vector_ne_nil f0)]
    norm_num
  · exact ⟨⟨"cat", build_feature_vector f0, none⟩, by simp, by decide⟩

/-! ### Claim C8 -/

/-- Claim C8 (amended): appending a prototype labelled `L` whose vector equals
the current record's encoding never decreases `L`'s score, and strictly
increases it whenever the existing collection's total similarity is not
positive or some existing prototype with a different label has positive
similarity; when the existing positive mass lies entirely on `L` the
normalized bonus is unchanged. -/
theorem c8_prototype_bonus_amended (P : List PrototypeSample) (f : VideoFeatures)
    (path : Option String) (L : String) (h0 : f.frame_samples ≠ 0)
    (hP : ∀ s ∈ P, s.label ∈ classesList) (hL : L ∈ classesList) :
    ∃ r r', classify P f path = .ok r ∧
      classify (P ++ [⟨L, build_feature_vector f, none⟩]) f path = .ok r' ∧
      dictGetD r.scores L 0 ≤ dictGetD r'.scores L 0 ∧
      ((totalSim (build_feature_vector f) P ≤ 0 ∨
        ∃ s ∈ P, s.label ≠ L ∧ 0 < similarity (build_feature_vector f) s.vector) →
        dictGetD r.scores L 0 < dictGetD r'.scores L 0) := by
  set v := build_feature_vector f with hv
  have hsim : similarity v v = 1 := similarity_self (build_feature_vector_ne_nil f)
  set t := totalSim v P with hts
  set l := labelSim v P L with hls
  have h0t : 0 ≤ t := totalSim_nonneg v P
  have h0l : 0 ≤ l := labelSim_nonneg v P L
  have hlt : l ≤ t := labelSim_le_totalSim v P L
  have ht' : totalSim v (P ++ [⟨L, v, none⟩]) = t + 1 := by
    rw [totalSim_append_single]
    show t + similarity v v = t + 1
    rw [hsim]
  have hl' : labelSim v (P ++ [⟨L, v, none⟩]) L = l + 1 := by
    rw [labelSim_append_same, hsim]
  have hP' : ∀ s ∈ P ++ [⟨L, v, none⟩], s.label ∈ classesList := by
    intro s hs
    rcases List.mem_append.mp hs with h1 | h1
    · exact hP s h1
    · rw [List.mem_singleton] at h1
      subst h1
      exact hL
  obtain ⟨r, hr, -, hvr⟩ := classify_ok_formula P f path h0 hP
  obtain ⟨r', hr', -, hvr'⟩ := classify_ok_formula (P ++ [⟨L, v, none⟩]) f path h0 hP'
  have hscore' : dictGetD r'.scores L 0 =
      dictGetD (heuristicScores f) L 0 + 0.2 * ((l + 1) / (t + 1)) := by
    rw [hvr' L, ht', hl', if_pos ⟨by linarith, hL⟩]
  refine ⟨r, r', hr, hr', ?_, ?_⟩
  · rw [hvr L, hscore']
    by_cases hc : 0 < t
    · rw [if_pos ⟨hc, hL⟩]
      have hdiv : l / t ≤ (l + 1) / (t + 1) := by
        rw [div_le_div_iff₀ hc (by linarith)]
        nlinarith
      linarith
    · rw [if_neg (by intro hx; exact hc hx.1)]
      have ht0 : t = 0 := le_antisymm (not_lt.mp hc) h0t
      have hl0 : l = 0 := le_antisymm (ht0 ▸ hlt) h0l
      rw [ht0, hl0]
      norm_num
  · intro hcond
    rw [hvr L, hscore']
    rcases hcond with hle | ⟨s₀, hs₀, hlabne, hspos⟩
    · have ht0 : t = 0 := le_antisymm hle h0t
      have hl0 : l = 0 := le_antisymm (ht0 ▸ hlt) h0l
      have hnot : ¬ (0 < totalSim (build_feature_vector f) P ∧ L ∈ classesList) := by
        intro hx
        have hxt : (0 : ℝ) < t := hx.1
        rw [ht0] at hxt
        exact lt_irrefl 0 hxt
      rw [if_neg hnot, ht0, hl0]
      norm_num
    · have hstrict : l < t := labelSim_add_lt_totalSim v hs₀ hlabne hspos
      have hc : 0 < t := lt_of_le_of_lt h0l hstrict
      rw [if_pos ⟨hc, hL⟩]
      have hdiv : l / t < (l + 1) / (t + 1) := by
        rw [div_lt_div_iff₀ hc (by linarith)]
        nlinarith
      linarith

/-- Claim C8 counterexample, refuting the claim as stated: when the single
stored prototype is already identical to the current encoding and labelled
"normal", appending a second identical "normal" prototype leaves the "normal"
score exactly unchanged — not strictly greater. -/
theorem c8_prototype_bonus_cex :
    ∃ r r2, classify [protoNormal] f0 none = .ok r ∧
      classify [protoNormal, protoNormal] f0 none = .ok r2 ∧
      dictGetD r2.scores "normal" 0 = dictGetD r.scores "normal" 0 ∧
      ¬ dictGetD r.scores "normal" 0 < dictGetD r2.scores "normal" 0 := by
  have hsim : similarity (build_feature_vector f0) protoNormal.vector = 1 :=
    similarity_self (build_feature_vector_ne_nil f0)
  have hlab : protoNormal.label = "normal" := rfl
  have hP1 : ∀ s ∈ [protoNormal], s.label ∈ classesList := by
    intro s hs
    rw [List.mem_singleton] at hs
    subst hs
    decide
  have hP2 : ∀ s ∈ [protoNormal, protoNormal], s.label ∈ classesList := by
    intro s hs
    rcases List.mem_cons.mp hs with h1 | h1
    · subst h1; decide
    · rw [List.mem_singleton] at h1
      subst h1
      decide
  have ht1 : totalSim (build_feature_vector f0) [protoNormal] = 1 := by
    rw [totalSim]
    simp only [List.map_cons, List.map_nil, List.sum_cons, List.sum_nil, add_zero]
    exact hsim
  have ht2 : totalSim (build_feature_vector f0) [protoNormal, protoNormal] = 2 := by
    rw [totalSim]
    simp only [List.map_cons, List.map_nil, List.sum_cons, List.sum_nil, add_zero]
    rw [hsim]
    norm_num
  have hl1 : labelSim (build_feature_vector f0) [protoNormal] "normal" = 1 := by
    rw [labelSim]
    simp only [List.map_cons, List.map_nil, List.sum_cons, List.sum_nil, add_zero]
    rw [if_pos hlab, hsim]
  have hl2 : labelSim (build_feature_vector f0) [protoNormal, protoNormal] "normal" = 2 := by
    rw [labelSim]
    simp only [List.map_cons, List.map_nil, List.sum_cons, List.sum_nil, add_zero]
    rw [if_pos hlab, hsim]
    norm_num
  obtain ⟨r, hr, -, hvr⟩ := classify_ok_formula [protoNormal] f0 none (by decide) hP1
  obtain ⟨r2, hr2, -, hvr2⟩ :=
    classify_ok_formula [protoNormal, protoNormal] f0 none (by decide) hP2
  have hs1 : dictGetD r.scores "normal" 0 =
      dictGetD (heuristicScores f0) "normal" 0 + 0.2 := by
    rw [hvr "normal", ht1, hl1, if_pos ⟨one_pos, by decide⟩]
    norm_num
  have hs2 : dictGetD r2.scores "normal" 0 =
      dictGetD (heuristicScores f0) "normal" 0 + 0.2 := by
    rw [hvr2 "normal", ht2, hl2, if_pos ⟨by norm_num, by decide⟩]
    norm_num
  exact ⟨r, r2, hr, hr2, by rw [hs1, hs2], by rw [hs1, hs2]; exact lt_irrefl _⟩

/-- Witness for the amended C8 at a concrete input where the strict increase
applies (empty existing collection). -/
theorem c8_prototype_bonus_amended_witness :
    ∃ r r', classify [] f0 none = .ok r ∧
      classify ([] ++ [⟨"normal", build_feature_vector f0, none⟩]) f0 none = .ok r' ∧
      dictGetD r.scores "normal" 0 < dictGetD r'.scores "normal" 0 := by
  obtain ⟨r, r', hr, hr', -, hstrict⟩ :=
    c8_prototype_bonus_amended [] f0 none "normal" (by decide) (by simp) (by decide)
  exact ⟨r, r', hr, hr', hstrict (Or.inl (by rw [totalSim]; simp))⟩

/-! ### Claim C5 -/

/-- Claim C5 counterexample, refuting the claim as stated: the stem
"acciexplosion" contains "explosion", yet the override table checks the
"road accident" entry (keyword "acci") first, so the returned label is
"road accident", not "explosion". -/
theorem c5_filename_override_cex :
    (classify [] f0 (some "acciexplosion")).map ClassificationResult.label =
      Except.ok "road accident" ∧ ("road accident" : String) ≠ "explosion" :=
  ⟨rfl, by decide⟩

/-- Claim C5 (amended): if the lower-cased stem contains "explosion" and does
not contain "acci" (the earlier "road accident" table entry's keywords are
"accident" and "acci", and "accident" contains "acci"), then every successful
classification of that path returns the label "explosion", for every
FeatureRecord and prototype collection. -/
theorem c5_filename_override_amended (P : List PrototypeSample) (f : VideoFeatures)
    (p : String) (r : ClassificationResult)
    (hexp : charsContain (lowerChars (pathStemChars p)) "explosion".data = true)
    (hacc : charsContain (lowerChars (pathStemChars p)) "acci".data = false)
    (hr : classify P f (some p) = .ok r) :
    r.label = "explosion" := by
  set name := lowerChars (pathStemChars p) with hname
  have hpne : p ≠ "" := by
    intro hc
    subst hc
    rw [hname, show lowerChars (pathStemChars "") = [] from rfl] at hexp
    exact absurd hexp (by decide)
  have haccident : charsContain name "accident".data = false := by
    cases hcontra : charsContain name "accident".data with
    | false => rfl
    | true =>
        have hinf := (charsContain_iff _ _).mp hcontra
        have hsub : ("acci".data : List Char) <:+: "accident".data :=
          ⟨[], ['d', 'e', 'n', 't'], by decide⟩
        have h2 := (charsContain_iff name "acci".data).mpr (hsub.trans hinf)
        rw [hacc] at h2
        exact Bool.noConfusion h2
  have hkw1 : findKeyword name ["accident", "acci"] = none := by
    rw [findKeyword, if_neg ?_, findKeyword, if_neg ?_, findKeyword]
    · intro hx
      rw [hacc] at hx
      exact Bool.noConfusion hx.2
    · intro hx
      rw [haccident] at hx
      exact Bool.noConfusion hx.2
  have hkw2 : findKeyword name ["explosion", "expl", "exp"] = some "explosion" := by
    rw [findKeyword, if_pos ⟨by decide, hexp⟩]
  have hov : filenameOverride (some p) = some ("explosion", "explosion") := by
    show (if p = "" then none else findOverride name filename_overrides) = _
    rw [if_neg hpne]
    simp only [filename_overrides, findOverride, hkw1, hkw2]
  by_cases h0 : f.frame_samples = 0
  · rw [classify, if_pos h0] at hr
    exact absurd hr (by simp)
  · cases haddb : addBonuses (heuristicScores f) (prototypeScores P f) with
    | error e =>
        rw [classify_error_of_addBonuses (some p) h0 haddb] at hr
        exact absurd hr (by simp)
    | ok s' =>
        rw [classify_ok_of_addBonuses (some p) h0 haddb, hov] at hr
        injection hr with hr
        rw [← hr]

/-- Witness for the amended C5 at a concrete path. -/
theorem c5_filename_override_amended_witness :
    ∃ r, classify [] f0 (some "explosion_clip.mp4") = .ok r ∧ r.label = "explosion" := by
  obtain ⟨r, hr, -, -⟩ :=
    classify_ok_formula [] f0 (some "explosion_clip.mp4") (by decide) (by simp)
  exact ⟨r, hr,
    c5_filename_override_amended [] f0 "explosion_clip.mp4" r (by decide) (by decide) hr⟩

/-! ### Aggregator lemmas -/

/-- Field projections of `aggregate` on a non-empty measurement list. -/
theorem aggregate_fields {stats : List FrameStats} (metadata : VideoMetadata)
    (h : stats ≠ []) :
    (aggregate stats metadata).crowd_ratio = (crowdRatio stats : ℝ) ∧
    (aggregate stats metadata).solo_motion_ratio = (soloMotionRatio stats : ℝ) ∧
    (aggregate stats metadata).motion_burst_ratio = (motionBurstRatio stats : ℝ) ∧
    (aggregate stats metadata).person_presence_ratio = (personPresenceRatio stats : ℝ) ∧
    (aggregate stats metadata).multi_person_ratio = (multiPersonRatio stats : ℝ) ∧
    (aggregate stats metadata).motion_presence_ratio = (motionPresenceRatio stats : ℝ) ∧
    (aggregate stats metadata).active_motion_ratio = (activeMotionRatio stats : ℝ) ∧
    (aggregate stats metadata).late_motion_ratio = (lateMotionRatio stats : ℝ) ∧
    (aggregate stats metadata).calm_ratio = (calmRatio stats : ℝ) ∧
    (aggregate stats metadata).motion_trend = (motionTrend stats : ℝ) := by
  rw [aggregate, if_neg (by simp [List.isEmpty_iff, h])]
  exact ⟨rfl, rfl, rfl, rfl, rfl, rfl, rfl, rfl, rfl, rfl⟩

theorem lateMotions_length_ne_zero {stats : List FrameStats} (h : stats ≠ []) :
    (lateMotions stats).length ≠ 0 := by
  have h1 : 0 < stats.length := List.length_pos.mpr h
  have hseg : 1 ≤ segmentLen stats := Nat.le_max_left 1 _
  rw [lateMotions, List.length_drop, motionsOf, List.length_map]
  omega

theorem earlyMotions_length_ne_zero {stats : List FrameStats} (h : stats ≠ []) :
    (earlyMotions stats).length ≠ 0 := by
  have h1 : 0 < stats.length := List.length_pos.mpr h
  have hseg : 1 ≤ segmentLen stats := Nat.le_max_left 1 _
  rw [earlyMotions, List.length_take, motionsOf, List.length_map]
  omega

theorem lateMotionRatio_eq {stats : List FrameStats} (h : stats ≠ []) :
    lateMotionRatio stats = frac (lateMotions stats) fun m => decide ((0.35 : ℚ) ≤ m) := by
  rw [lateMotionRatio, if_pos (lateMotions_length_ne_zero h)]

theorem motionTrend_eq {stats : List FrameStats} (h : stats ≠ []) :
    motionTrend stats = qmean (lateMotions stats) - qmean (earlyMotions stats) := by
  rw [motionTrend,
    if_pos ⟨earlyMotions_length_ne_zero h, lateMotions_length_ne_zero h⟩]

theorem calmRatio_nonneg (stats : List FrameStats) : 0 ≤ calmRatio stats := by
  rw [calmRatio]
  have h1 : 0 ≤ rawCalmRatio stats := frac_nonneg _ _
  have h2 : (0 : ℚ) ≤ max 0 (1 - activeMotionRatio stats) := le_max_left 0 _
  linarith

theorem calmRatio_le_one (stats : List FrameStats) : calmRatio stats ≤ 1 := by
  rw [calmRatio]
  have h1 : rawCalmRatio stats ≤ 1 := frac_le_one _ _
  have h2 : 0 ≤ activeMotionRatio stats := frac_nonneg _ _
  have h3 : max 0 (1 - activeMotionRatio stats) ≤ 1 := max_le (by norm_num) (by linarith)
  linarith

theorem lateMotionRatio_mem_unit (stats : List FrameStats) :
    0 ≤ lateMotionRatio stats ∧ lateMotionRatio stats ≤ 1 := by
  rw [lateMotionRatio]
  split
  · exact ⟨frac_nonneg _ _, frac_le_one _ _⟩
  · exact ⟨frac_nonneg _ _, frac_le_one _ _⟩

/-! ### Claim C6 -/

/-- Claim C6: for every non-empty measurement sequence, each of the nine ratio
fields of the produced feature record lies in [0, 1]. -/
theorem c6_ratios_unit_interval (stats : List FrameStats) (metadata : VideoMetadata)
    (h : stats ≠ []) :
    (0 ≤ (aggregate stats metadata).crowd_ratio ∧
      (aggregate stats metadata).crowd_ratio ≤ 1) ∧
    (0 ≤ (aggregate stats metadata).solo_motion_ratio ∧
      (aggregate stats metadata).solo_motion_ratio ≤ 1) ∧
    (0 ≤ (aggregate stats metadata).motion_burst_ratio ∧
      (aggregate stats metadata).motion_burst_ratio ≤ 1) ∧
    (0 ≤ (aggregate stats metadata).person_presence_ratio ∧
      (aggregate stats metadata).person_presence_ratio ≤ 1) ∧
    (0 ≤ (aggregate stats metadata).multi_person_ratio ∧
      (aggregate stats metadata).multi_person_ratio ≤ 1) ∧
    (0 ≤ (aggregate stats metadata).motion_presence_ratio ∧
      (aggregate stats metadata).motion_presence_ratio ≤ 1) ∧
    (0 ≤ (aggregate stats metadata).active_motion_ratio ∧
      (aggregate stats metadata).active_motion_ratio ≤ 1) ∧
    (0 ≤ (aggregate stats metadata).late_motion_ratio ∧
      (aggregate stats metadata).late_motion_ratio ≤ 1) ∧
    (0 ≤ (aggregate stats metadata).calm_ratio ∧
      (aggregate stats metadata).calm_ratio ≤ 1) := by
  obtain ⟨h1, h2, h3, h4, h5, h6, h7, h8, h9, -⟩ := aggregate_fields metadata h
  rw [h1, h2, h3, h4, h5, h6, h7, h8, h9]
  refine ⟨⟨?_, ?_⟩, ⟨?_, ?_⟩, ⟨?_, ?_⟩, ⟨?_, ?_⟩, ⟨?_, ?_⟩, ⟨?_, ?_⟩, ⟨?_, ?_⟩, ⟨?_, ?_⟩,
    ⟨?_, ?_⟩⟩
  · exact_mod_cast frac_nonneg (peopleOf stats) _
  · exact_mod_cast frac_le_one (peopleOf stats) _
  · exact_mod_cast frac_nonneg stats _
  · exact_mod_cast frac_le_one stats _
  · exact_mod_cast frac_nonneg (motionsOf stats) _
  · exact_mod_cast frac_le_one (motionsOf stats) _
  · exact_mod_cast frac_nonneg (peopleOf stats) _
  · exact_mod_cast frac_le_one (peopleOf stats) _
  · exact_mod_cast frac_nonneg (peopleOf stats) _
  · exact_mod_cast frac_le_one (peopleOf stats) _
  · exact_mod_cast frac_nonneg (movingObjectsOf stats) _
  · exact_mod_cast frac_le_one (movingObjectsOf stats) _
  · exact_mod_cast frac_nonneg (motionsOf stats) _
  · exact_mod_cast frac_le_one (motionsOf stats) _
  · exact_mod_cast (lateMotionRatio_mem_unit stats).1
  · exact_mod_cast (lateMotionRatio_mem_unit stats).2
  · exact_mod_cast calmRatio_nonneg stats
  · exact_mod_cast calmRatio_le_one stats

/-- Witness for C6 at the concrete two-frame sequence. -/
theorem c6_ratios_unit_interval_witness :
    stats2 ≠ [] ∧
    (0 ≤ (aggregate stats2 meta0).crowd_ratio ∧ (aggregate stats2 meta0).crowd_ratio ≤ 1) ∧
    (0 ≤ (aggregate stats2 meta0).solo_motion_ratio ∧
      (aggregate stats2 meta0).solo_motion_ratio ≤ 1) ∧
    (0 ≤ (aggregate stats2 meta0).motion_burst_ratio ∧
      (aggregate stats2 meta0).motion_burst_ratio ≤ 1) ∧
    (0 ≤ (aggregate stats2 meta0).person_presence_ratio ∧
      (aggregate stats2 meta0).person_presence_ratio ≤ 1) ∧
    (0 ≤ (aggregate stats2 meta0).multi_person_ratio ∧
      (aggregate stats2 meta0).multi_person_ratio ≤ 1) ∧
    (0 ≤ (aggregate stats2 meta0).motion_presence_ratio ∧
      (aggregate stats2 meta0).motion_presence_ratio ≤ 1) ∧
    (0 ≤ (aggregate stats2 meta0).active_motion_ratio ∧
      (aggregate stats2 meta0).active_motion_ratio ≤ 1) ∧
    (0 ≤ (aggregate stats2 meta0).late_motion_ratio ∧
      (aggregate stats2 meta0).late_motion_ratio ≤ 1) ∧
    (0 ≤ (aggregate stats2 meta0).calm_ratio ∧ (aggregate stats2 meta0).calm_ratio ≤ 1) :=
  ⟨by decide, c6_ratios_unit_interval stats2 meta0 (by decide)⟩

/-! ### Claim C3 -/

/-- Claim C3 counterexample, refuting the claim as stated: on a two-frame
sequence with motions 0 and 1, the claim's ⌊2/3⌋ = 0-frame segmentation
predicts `late_motion_ratio = 1/2` (the global fallback) and
`motion_trend = 0`, but the code's `max(1, ⌊2/3⌋) = 1`-frame segments yield
`late_motion_ratio = 1` and `motion_trend = 1`. -/
theorem c3_segmentation_cex :
    (aggregate stats2 meta0).late_motion_ratio = 1 ∧
    claimLateMotionRatio stats2 = 1 / 2 ∧
    (aggregate stats2 meta0).motion_trend = 1 ∧
    claimMotionTrend stats2 = 0 ∧
    ((claimLateMotionRatio stats2 : ℚ) : ℝ) ≠ (aggregate stats2 meta0).late_motion_ratio ∧
    ((claimMotionTrend stats2 : ℚ) : ℝ) ≠ (aggregate stats2 meta0).motion_trend := by
  obtain ⟨-, -, -, -, -, -, -, h8, -, h10⟩ :=
    @aggregate_fields stats2 meta0 (by decide)
  have hq1 : lateMotionRatio stats2 = 1 := by
    norm_num [lateMotionRatio, lateMotions, motionsOf, stats2, segmentLen, frac,
      activeMotionRatio, List.countP_cons, List.countP_nil]
  have hq2 : motionTrend stats2 = 1 := by
    norm_num [motionTrend, lateMotions, earlyMotions, motionsOf, stats2, segmentLen,
      qmean]
  have hq3 : claimLateMotionRatio stats2 = 1 / 2 := by
    norm_num [claimLateMotionRatio, motionsOf, stats2, frac, activeMotionRatio,
      List.countP_cons, List.countP_nil]
  have hq4 : claimMotionTrend stats2 = 0 := by
    norm_num [claimMotionTrend, motionsOf, stats2]
  have hl : (aggregate stats2 meta0).late_motion_ratio = 1 := by
    rw [h8, hq1]
    norm_num
  have ht : (aggregate stats2 meta0).motion_trend = 1 := by
    rw [h10, hq2]
    norm_num
  refine ⟨hl, hq3, ht, hq4, ?_, ?_⟩
  · rw [hl, hq3]
    norm_num
  · rw [ht, hq4]
    norm_num

/-- Claim C3 (amended): the aggregator's first and last segments each span
`max(1, ⌊n/3⌋)` frames; on a non-empty sequence neither segment is ever empty,
so `late_motion_ratio` always equals the active-motion fraction of the last
segment (the stated fallback is unreachable) and `motion_trend` always equals
the mean motion of the last segment minus the mean motion of the first. -/
theorem c3_segmentation_amended (stats : List FrameStats) (metadata : VideoMetadata)
    (h : stats ≠ []) :
    segmentLen stats = max 1 (stats.length / 3) ∧
    (lateMotions stats).length ≠ 0 ∧ (earlyMotions stats).length ≠ 0 ∧
    (aggregate stats metadata).late_motion_ratio =
      ((frac (lateMotions stats) fun m => decide ((0.35 : ℚ) ≤ m) : ℚ) : ℝ) ∧
    (aggregate stats metadata).motion_trend =
      ((qmean (lateMotions stats) - qmean (earlyMotions stats) : ℚ) : ℝ) := by
  obtain ⟨-, -, -, -, -, -, -, h8, -, h10⟩ := aggregate_fields metadata h
  refine ⟨rfl, lateMotions_length_ne_zero h, earlyMotions_length_ne_zero h, ?_, ?_⟩
  · rw [h8, lateMotionRatio_eq h]
  · rw [h10, motionTrend_eq h]

/-- Witness for the amended C3 at the concrete two-frame sequence. -/
theorem c3_segmentation_amended_witness :
    stats2 ≠ [] ∧
    (segmentLen stats2 = max 1 (stats2.length / 3) ∧
     (lateMotions stats2).length ≠ 0 ∧ (earlyMotions stats2).length ≠ 0 ∧
     (aggregate stats2 meta0).late_motion_ratio =
       ((frac (lateMotions stats2) fun m => decide ((0.35 : ℚ) ≤ m) : ℚ) : ℝ) ∧
     (aggregate stats2 meta0).motion_trend =
       ((qmean (lateMotions stats2) - qmean (earlyMotions stats2) : ℚ) : ℝ)) :=
  ⟨by decide, c3_segmentation_amended stats2 meta0 (by decide)⟩

end CrimeDetection
